import Mathlib

/-!
# LineClamp: a shallow embedding of `src/LineClamp.js`

The text-fit controller clamps an element's text to a maximum number of
rendered lines, first by shrinking the font size (`softClamp`), then by
truncating the text with an ellipsis (`hardClamp`).

Modelling decisions:
* Text content is a `List Char`; the HTML entity `&hellip;` is the single
  ellipsis character.
* The rendering surface is abstracted by `Env`: a function giving the
  element's rendered box height (`innerHeight`, used both for
  `offsetHeight` and for the measurement pass) from the current content
  and inline font size, and a function giving the height of the
  calibration fragment (`&nbsp;` + `maxLines` line breaks) from the
  current font size, from which `lineHeight` is derived.
* Heights are exact rationals (`ℚ`); JS numbers are pixel measurements,
  so this captures the arithmetic of `shouldClamp` faithfully.
* The inline style of the element is modelled by the fields that the
  controller itself mutates: `fontSize : Option ℤ` (`none` is the empty
  string, i.e. no inline font size) and `hasMinHeight : Bool` (whether an
  inline `min-height` property is present).
* Phase B of `hardClamp` is a `do … while` loop whose guard is solely
  `shouldClamp()`; it is embedded with explicit fuel and returns `none`
  when the fuel runs out, so non-termination of the JS loop is the
  statement that the embedding returns `none` for every fuel.
-/

set_option autoImplicit false

namespace LineClamp

/-- JS whitespace class `\s`, restricted to the ASCII whitespace
characters (space, tab, newline, carriage return, form feed). -/
def isWs (c : Char) : Bool :=
  c = ' ' || c = '\t' || c = '\n' || c = '\r' || c = '\x0c'

/-- Auxiliary single-pass splitter for `String.prototype.split(/\s+/)`.
`inRun` is true while we are inside a whitespace run (the token boundary
for that run has already been emitted); `acc` is the reversed current
token. -/
def splitAux : Bool → List Char → List Char → List (List Char)
  | _, [], acc => [acc.reverse]
  | inRun, c :: cs, acc =>
    if isWs c then
      if inRun then splitAux true cs acc
      else acc.reverse :: splitAux true cs []
    else splitAux false cs (c :: acc)

/-- JS `text.split(/\s+/)`: split on maximal whitespace runs. The empty
string yields `[""]`; leading and trailing runs yield empty tokens. -/
def splitWs (s : List Char) : List (List Char) :=
  splitAux false s []

/-- Embedding of `element.textContent.split(/\s+/)` — the `originalWords` snapshot
taken in the constructor (LineClamp.js lines 55–58). -/
def constructorWords (text : List Char) : List (List Char) :=
  splitWs text

/-- Embedding of `words.join(' ')`. -/
def joinWords (ws : List (List Char)) : List Char :=
  List.intercalate [' '] ws

/-- The single character rendered by the HTML entity `&hellip;`. -/
def hellip : Char := '…'

/-- The configuration fields resolved by the constructor. -/
structure Config where
  maxLines : ℚ
  useSoftClamp : Bool
  strict : Bool
  basisLineHeight : ℚ
  minFontSize : ℤ
  maxFontSize : ℤ

/-- The rendering surface: heights reported by the host environment as a
function of the state the controller can mutate. `innerHeight c fs` is
the element's `offsetHeight` when its content is `c` and its inline font
size is `fs`; `calibHeight fs` is the `offsetHeight` of the calibration
fragment `'&nbsp;' + '<br>'.repeat(maxLines)` at inline font size `fs`. -/
structure Env where
  innerHeight : List Char → Option ℤ → ℚ
  calibHeight : Option ℤ → ℚ

/-- The mutable state of the element/controller pair: the element's
content, the inline style properties the controller touches, and the
watch flag. -/
structure ElState where
  content : List Char
  fontSize : Option ℤ
  hasMinHeight : Bool
  watching : Bool
deriving DecidableEq, Repr

/-- A controller instance: resolved configuration plus the immutable
`originalWords` snapshot. -/
structure Ctrl where
  cfg : Config
  originalWords : List (List Char)

/-- The three events dispatched on the element: `lineclamp.softClamp`,
`lineclamp.hardClamp` and `lineclamp.clamp`. -/
inductive Ev where
  | softClamp
  | hardClamp
  | clamp
deriving DecidableEq, Repr

/-- Embedding of `get textDimensions` (lines 103–118): `innerHeight` is the element's
`offsetHeight`; `lineHeight` is the calibration fragment's `offsetHeight`
divided by `maxLines`. -/
def textDims (cfg : Config) (env : Env) (c : List Char) (fs : Option ℤ) : ℚ × ℚ :=
  (env.innerHeight c fs, env.calibHeight fs / cfg.maxLines)

/-- Embedding of `shouldClamp()` (lines 244–249) evaluated at content `c` and inline
font size `fs`. -/
def shouldClampAt (cfg : Config) (env : Env) (c : List Char) (fs : Option ℤ) : Bool :=
  let d := textDims cfg env c fs
  let comparisonLineHeight := if cfg.strict then d.2 else cfg.basisLineHeight
  decide (d.1 / comparisonLineHeight > cfg.maxLines)

/-- Phase B of `hardClamp` (lines 193–197): `do { drop last char; render
text + ellipsis } while (shouldClamp())`, with explicit fuel. Returns the
element's final content, or `none` if the guard stayed true for `fuel`
iterations. -/
def phaseB (cfg : Config) (env : Env) (fs : Option ℤ) : ℕ → List Char → Option (List Char)
  | 0, _ => none
  | fuel + 1, text =>
    let t := text.dropLast
    if shouldClampAt cfg env (t ++ [hellip]) fs then phaseB cfg env fs fuel t
    else some (t ++ [hellip])

/-- The word-level candidate texts of Phase A (line 187–189): for each
`i` in `0 .. words.length - 1`, the first `i` words joined by single
spaces. Note the JS loop runs `i < len`, so the full word list is never
a candidate. -/
def pfxTexts (ws : List (List Char)) : List (List Char) :=
  (List.range ws.length).map (fun i => joinWords (ws.take i))

/-- Phase A of `hardClamp` (lines 187–201): set the content to each
candidate in turn; on the first candidate that still overflows, run
Phase B from it and stop. Returns the element's final content. -/
def phaseAList (cfg : Config) (env : Env) (fs : Option ℤ) (fuel : ℕ) :
    List (List Char) → List Char → Option (List Char)
  | [], c => some c
  | p :: rest, _ =>
    if shouldClampAt cfg env p fs then phaseB cfg env fs fuel p
    else phaseAList cfg env fs fuel rest p

/-- Embedding of `hardClamp()` (lines 185–210): if `shouldClamp()`, run the two-phase
trim and fire `lineclamp.hardClamp` then `lineclamp.clamp`; in every case
remove the inline `min-height` property. -/
def hardClamp (C : Ctrl) (env : Env) (fuel : ℕ) (st : ElState) :
    Option (ElState × List Ev) :=
  if shouldClampAt C.cfg env st.content st.fontSize then
    match phaseAList C.cfg env st.fontSize fuel (pfxTexts C.originalWords) st.content with
    | some c => some ({ st with content := c, hasMinHeight := false },
                      [Ev.hardClamp, Ev.clamp])
    | none => none
  else
    some ({ st with hasMinHeight := false }, [])

/-- The descending list `[hi, hi - 1, …, hi - n + 1]` of the `n` font
sizes the soft-clamp loop would visit starting at `hi`. -/
def descList : ℕ → ℤ → List ℤ
  | 0, _ => []
  | n + 1, hi => hi :: descList n (hi - 1)

/-- The candidate font sizes of the loop
`for (let i = maxFontSize; i >= minFontSize; --i)`:
`[hi, hi - 1, …, lo]`, empty when `hi < lo`. -/
def candList (hi lo : ℤ) : List ℤ :=
  descList (hi + 1 - lo).toNat hi

/-- The soft-clamp loop body (lines 222–229): apply each candidate size
to the element, stop with `done = true` on the first size at which
`shouldClamp()` is false. Returns the final inline font size and the
`done` flag. -/
def softLoop (cfg : Config) (env : Env) (c : List Char) :
    List ℤ → Option ℤ → Option ℤ × Bool
  | [], fs => (fs, false)
  | i :: rest, _ =>
    if shouldClampAt cfg env c (some i) then softLoop cfg env c rest (some i)
    else (some i, true)

/-- Embedding of `softClamp()` (lines 216–242): reset the inline font size, and if the
content overflows, search downward; on success fire `lineclamp.softClamp`
and `lineclamp.clamp`, on exhaustion fire `lineclamp.softClamp` and fall
through to `hardClamp()`. -/
def softClamp (C : Ctrl) (env : Env) (fuel : ℕ) (st : ElState) :
    Option (ElState × List Ev) :=
  let st0 := { st with fontSize := none }
  if shouldClampAt C.cfg env st0.content none then
    match softLoop C.cfg env st0.content (candList C.cfg.maxFontSize C.cfg.minFontSize) none with
    | (fs1, true) => some ({ st0 with fontSize := fs1 }, [Ev.softClamp, Ev.clamp])
    | (fs1, false) =>
      match hardClamp C env fuel { st0 with fontSize := fs1 } with
      | some (st2, evs) => some (st2, Ev.softClamp :: evs)
      | none => none
  else
    some (st0, [])

/-- The dispatch performed by `clamp()` (lines 166–171): soft clamp if
`useSoftClamp`, else hard clamp. -/
def remediate (C : Ctrl) (env : Env) (fuel : ℕ) (st : ElState) :
    Option (ElState × List Ev) :=
  if C.cfg.useSoftClamp then softClamp C env fuel st else hardClamp C env fuel st

/-- Embedding of `clamp()` (lines 159–180): if the element has non-zero rendered
height, remember the watch flag, unwatch, remediate, and re-watch
(without an initial clamp) if previously watching. -/
def clamp (C : Ctrl) (env : Env) (fuel : ℕ) (st : ElState) :
    Option (ElState × List Ev) :=
  if env.innerHeight st.content st.fontSize ≠ 0 then
    let previouslyWatching := st.watching
    let st1 := { st with watching := false }
    match remediate C env fuel st1 with
    | some (st2, evs) =>
      some ((if previouslyWatching then { st2 with watching := true } else st2), evs)
    | none => none
  else
    some (st, [])

/-- The property names zeroed out for measurement (lines 254–260),
verbatim from the source, including the two nonexistent CSS properties
`padding-top-width` and `padding-bottom-width`. -/
def stylesToZeroOut : List String :=
  ["min-height", "border-top-width", "border-bottom-width",
   "padding-top-width", "padding-bottom-width"]

/-- Embedding of `newStyles` (lines 261–263): the zeroing declarations the measurement
pass computes — and then never uses. -/
def newStyles : String :=
  String.intercalate ";" (stylesToZeroOut.map (fun rule => rule ++ ":0!important"))

/-- JS implicit array-to-string conversion: `'' + arr` joins the elements
with commas. -/
def jsArrayToString (l : List String) : String :=
  String.intercalate "," l

/-- Embedding of line 268, `this._element.style.cssText += ';' + stylesToZeroOut`:
the inline style text actually in effect while the measurement callback
runs, as a function of the saved style text. -/
def measuringCssText (old : String) : String :=
  old ++ ";" ++ jsArrayToString stylesToZeroOut

/-- The overflow condition at entry to a remediation pass: on the soft
path the test happens after the font-size reset, on the hard path it is
the `hardClamp()` guard itself. -/
def entryOverflow (C : Ctrl) (env : Env) (st : ElState) : Bool :=
  if C.cfg.useSoftClamp then shouldClampAt C.cfg env st.content none
  else shouldClampAt C.cfg env st.content st.fontSize

/-! ## Concrete rendering surfaces and controllers used as test vectors -/

/-- A configuration and surface on which `shouldClamp()` stays true for
every content: the box always renders 10 high while one line is 1 high
and `maxLines` is 1 (for example, a surface whose ellipsis alone still
overflows the budget). -/
def ovCfg : Config := ⟨1, true, true, 1, 1, 2⟩

/-- The always-overflowing rendering surface used with `ovCfg`. -/
def ovEnv : Env := ⟨fun _ _ => 10, fun _ => 1⟩

/-- A surface whose box height depends only on the content length: up to
one character fits on one line, anything longer renders two lines high,
at any font size. -/
def lenEnv : Env := ⟨fun c _ => if c.length ≤ 1 then 1 else 2, fun _ => 1⟩

/-- Strict one-line soft-clamp configuration with font-size range `[1, 2]`. -/
def cascadeCfg : Config := ⟨1, true, true, 1, 1, 2⟩

/-- Controller over `cascadeCfg` whose original text was the single word
`"ab"`. -/
def cascadeCtrl : Ctrl := ⟨cascadeCfg, [['a', 'b']]⟩

/-- Controller over `cascadeCfg` whose original text was `"a b"`
(two words). -/
def twoWordsCtrl : Ctrl := ⟨cascadeCfg, [['a'], ['b']]⟩

/-- Hard-clamp-only variant of `cascadeCfg`. -/
def hardOnlyCfg : Config := ⟨1, false, true, 1, 1, 2⟩

/-- Controller over `hardOnlyCfg` for the single word `"ab"`. -/
def hardOnlyCtrl : Ctrl := ⟨hardOnlyCfg, [['a', 'b']]⟩

/-- Soft-clamp configuration with an empty font-size search range
(`minFontSize = 5 > 2 = maxFontSize`). -/
def emptyRangeCfg : Config := ⟨1, true, true, 1, 5, 2⟩

/-- Controller over `emptyRangeCfg` for the single word `"ab"`. -/
def emptyRangeCtrl : Ctrl := ⟨emptyRangeCfg, [['a', 'b']]⟩

/-- Element state holding the text `"ab"`, no inline font size, no
inline `min-height`, not watching. -/
def abSt : ElState := ⟨['a', 'b'], none, false, false⟩

/-- Element state holding the text `"a b"`. -/
def abSpacedSt : ElState := ⟨['a', ' ', 'b'], none, false, false⟩

/-- A surface whose overflow depends only on the inline font size: any
content fits at inline size 3 or larger, overflows below 3 or with no
inline size. -/
def fsEnv : Env :=
  ⟨fun _ fs => match fs with | some i => if 3 ≤ i then 1 else 2 | none => 2,
   fun _ => 1⟩

/-- Strict one-line soft-clamp configuration with range `[1, 5]`, used
with `fsEnv`. -/
def fsCfg : Config := ⟨1, true, true, 1, 1, 5⟩

/-- Controller over `fsCfg` for the single word `"x"`. -/
def fsCtrl : Ctrl := ⟨fsCfg, [['x']]⟩

/-- Element state holding the text `"x"`. -/
def xSt : ElState := ⟨['x'], none, false, false⟩

/-- A surface on which everything fits: every box height is 1. -/
def fitEnv : Env := ⟨fun _ _ => 1, fun _ => 1⟩

/-- Element state holding `"hi"`, currently watching. -/
def fitSt : ElState := ⟨['h', 'i'], none, false, true⟩

/-! ## Lemmas about the whitespace splitter -/

/-- The splitter never produces an empty token list. -/
theorem splitAux_ne_nil (l : List Char) : ∀ (b : Bool) (acc : List Char),
    splitAux b l acc ≠ [] := by
  induction l with
  | nil => intro b acc; simp [splitAux]
  | cons c cs ih =>
    intro b acc
    unfold splitAux
    by_cases hc : isWs c
    · simp only [hc, if_true]
      cases b with
      | true => simpa using ih true acc
      | false => simp
    · simpa [hc] using ih false (c :: acc)

/-- If the input ends in a space, the last token is empty. The side
condition records the invariant that the accumulator is empty while
inside a whitespace run. -/
theorem splitAux_trailing_space (l : List Char) :
    ∀ (b : Bool) (acc : List Char), (b = true → acc = []) →
    (splitAux b (l ++ [' ']) acc).getLast? = some [] := by
  induction l with
  | nil =>
    intro b acc hinv
    cases b with
    | true =>
      rw [hinv rfl]
      simp [splitAux, isWs]
    | false =>
      simp [splitAux, isWs]
  | cons c cs ih =>
    intro b acc hinv
    rw [List.cons_append]
    unfold splitAux
    by_cases hc : isWs c
    · simp only [hc, if_true]
      cases b with
      | true =>
        simp only [if_true]
        exact ih true acc hinv
      | false =>
        simp only [Bool.false_eq_true, if_false]
        have hne := splitAux_ne_nil (cs ++ [' ']) true ([] : List Char)
        have htail := ih true [] (fun _ => rfl)
        cases hres : splitAux true (cs ++ [' ']) [] with
        | nil => exact absurd hres hne
        | cons x xs =>
          rw [hres] at htail
          rw [List.getLast?_cons_cons, htail]
    · simp only [hc, Bool.false_eq_true, if_false]
      exact ih false (c :: acc) (by simp)

/-- C10: the `originalWords` snapshot `element.textContent.split(/\s+/)`
is never empty — the empty text maps to the singleton list containing the
empty token — and a leading or a trailing whitespace character produces
an extra empty-string token at the corresponding end. -/
theorem constructorWords_edge_tokens (s : List Char) :
    constructorWords s ≠ [] ∧
    constructorWords [] = [[]] ∧
    (constructorWords (' ' :: s)).head? = some [] ∧
    (constructorWords (s ++ [' '])).getLast? = some [] := by
  refine ⟨splitAux_ne_nil s false [], rfl, ?_, ?_⟩
  · simp [constructorWords, splitWs, splitAux, isWs]
  · exact splitAux_trailing_space s false [] (fun _ => rfl)

/-! ## The measurement pass bug (claim C1) -/

/-- C1: during a measurement pass the code does *not* append zeroing
overrides to the inline style. Line 268 concatenates the array
`stylesToZeroOut` itself, which JS stringifies to the comma-joined list
of property names; the appended text contains no `:` at all (hence no
CSS declaration and no zeroing), while the intended (and computed, but
unused) `newStyles` string holds the five `:0!important` declarations. -/
theorem measuringCssText_appends_names_not_overrides :
    (∀ old : String, measuringCssText old = old ++ ";" ++
      "min-height,border-top-width,border-bottom-width,padding-top-width,padding-bottom-width") ∧
    (jsArrayToString stylesToZeroOut).toList.count ':' = 0 ∧
    newStyles.toList.count ':' = 5 ∧
    jsArrayToString stylesToZeroOut ≠ newStyles := by
  have h : jsArrayToString stylesToZeroOut =
      "min-height,border-top-width,border-bottom-width,padding-top-width,padding-bottom-width" := by
    decide
  refine ⟨fun old => by rw [measuringCssText, h], by decide, by decide, by decide⟩

/-! ## Non-termination of the Phase B character trim (claim C2) -/

/-- On `ovEnv`, every measurement reports overflow. -/
theorem ovEnv_shouldClamp (c : List Char) (fs : Option ℤ) :
    shouldClampAt ovCfg ovEnv c fs = true := by
  simp only [shouldClampAt, textDims, ovCfg, ovEnv]
  norm_num

/-- C2: the character-level trim loop of `hardClamp` does not treat
"string exhausted" as a termination condition: its guard is solely
`shouldClamp()`, so on a surface where overflow persists even for the
empty string plus ellipsis the `do … while` loop never exits — the
fuel-indexed embedding returns `none` for every fuel and every starting
text, including the already-empty one. -/
theorem phaseB_spins_on_persistent_overflow (fuel : ℕ) (text : List Char) :
    phaseB ovCfg ovEnv none fuel text = none := by
  induction fuel generalizing text with
  | zero => rfl
  | succ n ih => simp [phaseB, ovEnv_shouldClamp, ih]

/-! ## The overflow decision (claim C6) -/

/-- C6: `shouldClamp()` measures `(innerHeight, lineHeight)`, compares
against the measured line height when `strict` and against
`basisLineHeight` otherwise, and returns true exactly when
`innerHeight / comparisonLineHeight > maxLines`. -/
theorem shouldClamp_formula (cfg : Config) (env : Env) (c : List Char) (fs : Option ℤ) :
    shouldClampAt cfg env c fs = true ↔
      (textDims cfg env c fs).1 /
          (if cfg.strict then (textDims cfg env c fs).2 else cfg.basisLineHeight) >
        cfg.maxLines := by
  simp [shouldClampAt]

/-! ## Generic facts about the two-phase hard clamp -/

/-- When Phase B returns, the rendered result no longer overflows. -/
theorem phaseB_fits (cfg : Config) (env : Env) (fs : Option ℤ) (fuel : ℕ) :
    ∀ (t c : List Char), phaseB cfg env fs fuel t = some c →
    shouldClampAt cfg env c fs = false := by
  induction fuel with
  | zero => intro t c h; simp [phaseB] at h
  | succ n ih =>
    intro t c h
    unfold phaseB at h
    by_cases hg : shouldClampAt cfg env (t.dropLast ++ [hellip]) fs
    · rw [if_pos hg] at h
      exact ih _ _ h
    · rw [if_neg hg] at h
      obtain rfl : t.dropLast ++ [hellip] = c := by injection h
      exact (Bool.not_eq_true _) ▸ hg

/-- When Phase A returns on a nonempty candidate list, the final content
no longer overflows. -/
theorem phaseAList_fits (cfg : Config) (env : Env) (fs : Option ℤ) (fuel : ℕ) :
    ∀ (l : List (List Char)) (c c' : List Char), l ≠ [] →
    phaseAList cfg env fs fuel l c = some c' →
    shouldClampAt cfg env c' fs = false := by
  intro l
  induction l with
  | nil => intro c c' h; exact absurd rfl h
  | cons p rest ih =>
    intro c c' _ h
    unfold phaseAList at h
    by_cases hg : shouldClampAt cfg env p fs
    · rw [if_pos hg] at h
      exact phaseB_fits cfg env fs fuel p c' h
    · rw [if_neg hg] at h
      cases rest with
      | nil =>
        obtain rfl : p = c' := by simpa [phaseAList] using h
        exact (Bool.not_eq_true _) ▸ hg
      | cons q qs => exact ih p c' (by simp) h

/-- When no candidate overflows, Phase A walks the whole list and leaves
the last candidate as content without ever entering Phase B. -/
theorem phaseAList_all_fit (cfg : Config) (env : Env) (fs : Option ℤ) (fuel : ℕ) :
    ∀ (l : List (List Char)) (c : List Char),
    (∀ p ∈ l, shouldClampAt cfg env p fs = false) →
    phaseAList cfg env fs fuel l c = some (l.getLastD c) := by
  intro l
  induction l with
  | nil => intro c _; simp [phaseAList]
  | cons p rest ih =>
    intro c hall
    have hp : shouldClampAt cfg env p fs = false := hall p (by simp)
    unfold phaseAList
    rw [if_neg (by simp [hp]), ih p (fun q hq => hall q (by simp [hq])),
      List.getLastD_cons]

/-- The Phase A candidate list is nonempty whenever `originalWords` is. -/
theorem pfxTexts_ne_nil (ws : List (List Char)) (h : ws ≠ []) : pfxTexts ws ≠ [] := by
  simp [pfxTexts, List.length_eq_zero, h]

/-- The last Phase A candidate is the join of all words but the last. -/
theorem pfxTexts_getLastD (ws : List (List Char)) (c : List Char) (h : ws ≠ []) :
    (pfxTexts ws).getLastD c = joinWords (ws.take (ws.length - 1)) := by
  obtain ⟨n, hn⟩ : ∃ n, ws.length = n + 1 := by
    cases hl : ws.length with
    | zero => exact absurd (List.length_eq_zero.mp hl) h
    | succ n => exact ⟨n, rfl⟩
  rw [pfxTexts, hn, List.range_succ, List.map_append, List.map_cons, List.map_nil,
    List.getLastD_concat]
  simp

/-- Outcome of `hardClamp()` when the guard is false: only the inline
`min-height` reservation is cleared, and no events fire. -/
theorem hardClamp_guard_false (C : Ctrl) (env : Env) (fuel : ℕ) (st : ElState)
    (h : shouldClampAt C.cfg env st.content st.fontSize = false) :
    hardClamp C env fuel st = some ({ st with hasMinHeight := false }, []) := by
  simp [hardClamp, h]

/-- Outcome of `hardClamp()` when the guard is true and the pass
terminates: the two events fire in order, the font size and watch flag
are untouched, the `min-height` reservation is cleared, and (because
`originalWords` is nonempty) the final content fits. -/
theorem hardClamp_guard_true (C : Ctrl) (env : Env) (fuel : ℕ) (st st' : ElState)
    (evs : List Ev)
    (hg : shouldClampAt C.cfg env st.content st.fontSize = true)
    (hw : C.originalWords ≠ [])
    (h : hardClamp C env fuel st = some (st', evs)) :
    evs = [Ev.hardClamp, Ev.clamp] ∧ st'.fontSize = st.fontSize ∧
    st'.watching = st.watching ∧ st'.hasMinHeight = false ∧
    shouldClampAt C.cfg env st'.content st'.fontSize = false := by
  unfold hardClamp at h
  rw [hg] at h
  simp only [if_true] at h
  cases hA : phaseAList C.cfg env st.fontSize fuel (pfxTexts C.originalWords) st.content with
  | none => rw [hA] at h; cases h
  | some c =>
    rw [hA] at h
    have h' : (({ st with content := c, hasMinHeight := false } : ElState),
        ([Ev.hardClamp, Ev.clamp] : List Ev)) = (st', evs) := Option.some.inj h
    rw [Prod.ext_iff] at h'
    obtain ⟨h1, h2⟩ := h'
    subst h1
    subst h2
    refine ⟨rfl, rfl, rfl, rfl, ?_⟩
    exact phaseAList_fits C.cfg env st.fontSize fuel _ st.content c
      (pfxTexts_ne_nil C.originalWords hw) hA

/-- Watch flag and font size are never touched by `hardClamp()`. -/
theorem hardClamp_preserves (C : Ctrl) (env : Env) (fuel : ℕ) (st st' : ElState)
    (evs : List Ev) (h : hardClamp C env fuel st = some (st', evs)) :
    st'.watching = st.watching ∧ st'.fontSize = st.fontSize := by
  unfold hardClamp at h
  by_cases hg : shouldClampAt C.cfg env st.content st.fontSize
  · rw [if_pos hg] at h
    cases hA : phaseAList C.cfg env st.fontSize fuel (pfxTexts C.originalWords) st.content with
    | none => rw [hA] at h; cases h
    | some c =>
      rw [hA] at h
      have h' : (({ st with content := c, hasMinHeight := false } : ElState),
          ([Ev.hardClamp, Ev.clamp] : List Ev)) = (st', evs) := Option.some.inj h
      rw [Prod.ext_iff] at h'
      dsimp only at h'
      rw [← h'.1]
      exact ⟨rfl, rfl⟩
  · rw [if_neg hg] at h
    have h' : (({ st with hasMinHeight := false } : ElState), ([] : List Ev)) =
        (st', evs) := Option.some.inj h
    rw [Prod.ext_iff] at h'
    dsimp only at h'
    rw [← h'.1]
    exact ⟨rfl, rfl⟩

/-- C3-amended: when `hardClamp()` runs with its guard true but no Phase A
candidate (prefixes of length `0 .. N-1`) overflows, Phase B never runs
and the surface is left holding the prefix of length `N - 1` — all words
of `originalWords` *except the last*, joined by single spaces — not the
full original text. -/
theorem hardClamp_all_prefixes_fit (C : Ctrl) (env : Env) (fuel : ℕ) (st : ElState)
    (hg : shouldClampAt C.cfg env st.content st.fontSize = true)
    (hw : C.originalWords ≠ [])
    (hfit : ∀ i, i < C.originalWords.length →
      shouldClampAt C.cfg env (joinWords (C.originalWords.take i)) st.fontSize = false) :
    hardClamp C env fuel st =
      some ({ st with
              content := joinWords (C.originalWords.take (C.originalWords.length - 1)),
              hasMinHeight := false },
            [Ev.hardClamp, Ev.clamp]) := by
  have hall : ∀ p ∈ pfxTexts C.originalWords,
      shouldClampAt C.cfg env p st.fontSize = false := by
    intro p hp
    rw [pfxTexts] at hp
    obtain ⟨i, hi, rfl⟩ := List.mem_map.mp hp
    exact hfit i (List.mem_range.mp hi)
  unfold hardClamp
  rw [hg]
  simp only [if_true]
  rw [phaseAList_all_fit C.cfg env st.fontSize fuel _ st.content hall,
    pfxTexts_getLastD C.originalWords st.content hw]

/-! ## Generic facts about the soft clamp -/

/-- When the soft-clamp loop stops with `done = true`, the last applied
font size fits. -/
theorem softLoop_done_fits (cfg : Config) (env : Env) (c : List Char) :
    ∀ (l : List ℤ) (fs0 fs1 : Option ℤ), softLoop cfg env c l fs0 = (fs1, true) →
    shouldClampAt cfg env c fs1 = false := by
  intro l
  induction l with
  | nil => intro fs0 fs1 h; cases h
  | cons i rest ih =>
    intro fs0 fs1 h
    unfold softLoop at h
    by_cases hg : shouldClampAt cfg env c (some i)
    · rw [if_pos hg] at h
      exact ih (some i) fs1 h
    · rw [if_neg hg] at h
      obtain rfl : some i = fs1 := congrArg Prod.fst h
      exact (Bool.not_eq_true _) ▸ hg

/-- When the soft-clamp loop exhausts, either it never ran (empty
candidate list, font size untouched) or the last applied size still
overflows. -/
theorem softLoop_exhaust (cfg : Config) (env : Env) (c : List Char) :
    ∀ (l : List ℤ) (fs0 fs1 : Option ℤ), softLoop cfg env c l fs0 = (fs1, false) →
    (l = [] ∧ fs1 = fs0) ∨ shouldClampAt cfg env c fs1 = true := by
  intro l
  induction l with
  | nil =>
    intro fs0 fs1 h
    exact Or.inl ⟨rfl, (congrArg Prod.fst h).symm⟩
  | cons i rest ih =>
    intro fs0 fs1 h
    unfold softLoop at h
    by_cases hg : shouldClampAt cfg env c (some i)
    · rw [if_pos hg] at h
      rcases ih (some i) fs1 h with ⟨_, rfl⟩ | hov
      · exact Or.inr hg
      · exact Or.inr hov
    · rw [if_neg hg] at h
      cases congrArg Prod.snd h

/-- Outcome of `softClamp()` when the content fits after the font-size
reset: only the reset happens, no events fire. -/
theorem softClamp_guard_false (C : Ctrl) (env : Env) (fuel : ℕ) (st : ElState)
    (h : shouldClampAt C.cfg env st.content none = false) :
    softClamp C env fuel st = some ({ st with fontSize := none }, []) := by
  simp [softClamp, h]

/-- Outcome of a terminating `softClamp()` when overflow holds after the
reset: the events are either `[softClamp, clamp]` (fitting size found) or
the cascade `[softClamp, hardClamp, clamp]`, and — when `originalWords`
is nonempty — the final state fits. -/
theorem softClamp_guard_true (C : Ctrl) (env : Env) (fuel : ℕ) (st st' : ElState)
    (evs : List Ev)
    (hov : shouldClampAt C.cfg env st.content none = true)
    (hw : C.originalWords ≠ [])
    (h : softClamp C env fuel st = some (st', evs)) :
    (evs = [Ev.softClamp, Ev.clamp] ∨ evs = [Ev.softClamp, Ev.hardClamp, Ev.clamp]) ∧
    shouldClampAt C.cfg env st'.content st'.fontSize = false := by
  simp only [softClamp] at h
  rw [hov] at h
  simp only [if_true] at h
  cases hl : softLoop C.cfg env st.content (candList C.cfg.maxFontSize C.cfg.minFontSize) none with
  | mk fs1 done =>
    rw [hl] at h
    cases done with
    | true =>
      have h' : (({ st with fontSize := fs1 } : ElState),
          ([Ev.softClamp, Ev.clamp] : List Ev)) = (st', evs) := Option.some.inj h
      rw [Prod.ext_iff] at h'
      dsimp only at h'
      obtain ⟨h1, h2⟩ := h'
      subst h1
      subst h2
      exact ⟨Or.inl rfl, softLoop_done_fits C.cfg env st.content _ none fs1 hl⟩
    | false =>
      dsimp only at h
      cases hh : hardClamp C env fuel { st with fontSize := fs1 } with
      | none => rw [hh] at h; cases h
      | some pr =>
        obtain ⟨st2, evs2⟩ := pr
        rw [hh] at h
        have h' : ((st2 : ElState), (Ev.softClamp :: evs2)) = (st', evs) := Option.some.inj h
        rw [Prod.ext_iff] at h'
        dsimp only at h'
        obtain ⟨h1, h2⟩ := h'
        subst h1
        subst h2
        have hg2 : shouldClampAt C.cfg env ({ st with fontSize := fs1 } : ElState).content
            ({ st with fontSize := fs1 } : ElState).fontSize = true := by
          rcases softLoop_exhaust C.cfg env st.content _ none fs1 hl with ⟨_, rfl⟩ | hov2
          · exact hov
          · exact hov2
        obtain ⟨hevs, _, _, _, hfits⟩ :=
          hardClamp_guard_true C env fuel _ st2 evs2 hg2 hw hh
        exact ⟨Or.inr (by rw [hevs]), hfits⟩

/-- Watch flag is never touched by `softClamp()` itself. -/
theorem softClamp_preserves_watching (C : Ctrl) (env : Env) (fuel : ℕ) (st st' : ElState)
    (evs : List Ev) (h : softClamp C env fuel st = some (st', evs)) :
    st'.watching = st.watching := by
  simp only [softClamp] at h
  by_cases hov : shouldClampAt C.cfg env st.content none = true
  · rw [hov] at h
    simp only [if_true] at h
    cases hl : softLoop C.cfg env st.content (candList C.cfg.maxFontSize C.cfg.minFontSize) none with
    | mk fs1 done =>
      rw [hl] at h
      cases done with
      | true =>
        have h' : (({ st with fontSize := fs1 } : ElState),
            ([Ev.softClamp, Ev.clamp] : List Ev)) = (st', evs) := Option.some.inj h
        rw [Prod.ext_iff] at h'
        dsimp only at h'
        rw [← h'.1]
      | false =>
        dsimp only at h
        cases hh : hardClamp C env fuel { st with fontSize := fs1 } with
        | none => rw [hh] at h; cases h
        | some pr =>
          obtain ⟨st2, evs2⟩ := pr
          rw [hh] at h
          have h' : ((st2 : ElState), (Ev.softClamp :: evs2)) = (st', evs) := Option.some.inj h
          rw [Prod.ext_iff] at h'
          dsimp only at h'
          rw [← h'.1]
          exact (hardClamp_preserves C env fuel _ st2 evs2 hh).1
  · rw [Bool.not_eq_true] at hov
    rw [hov] at h
    simp only [Bool.false_eq_true, if_false] at h
    have h' : (({ st with fontSize := none } : ElState), ([] : List Ev)) = (st', evs) :=
      Option.some.inj h
    rw [Prod.ext_iff] at h'
    dsimp only at h'
    rw [← h'.1]

/-- Watch flag is never touched by the remediation dispatch. -/
theorem remediate_preserves_watching (C : Ctrl) (env : Env) (fuel : ℕ) (st st' : ElState)
    (evs : List Ev) (h : remediate C env fuel st = some (st', evs)) :
    st'.watching = st.watching := by
  unfold remediate at h
  by_cases hu : C.cfg.useSoftClamp = true
  · rw [if_pos hu] at h
    exact softClamp_preserves_watching C env fuel st st' evs h
  · rw [if_neg hu] at h
    exact (hardClamp_preserves C env fuel st st' evs h).1

/-- C7: a terminating `clamp()` call preserves the watching state — if
the instance was watching before the call it is watching again after it
(the remediation pass runs unwatched in between and the flag is restored
by `watch(false)`), so no internal remediation pass leaves the instance
permanently unwatched. -/
theorem clamp_preserves_watching (C : Ctrl) (env : Env) (fuel : ℕ) (st st' : ElState)
    (evs : List Ev) (h : clamp C env fuel st = some (st', evs)) :
    st'.watching = st.watching := by
  simp only [clamp] at h
  by_cases hg : env.innerHeight st.content st.fontSize ≠ 0
  · rw [if_pos hg] at h
    cases hr : remediate C env fuel { st with watching := false } with
    | none => rw [hr] at h; cases h
    | some pr =>
      obtain ⟨st2, evs2⟩ := pr
      rw [hr] at h
      dsimp only at h
      have hw2 : st2.watching = false :=
        remediate_preserves_watching C env fuel _ st2 evs2 hr
      have h' : ((if st.watching then { st2 with watching := true } else st2),
          evs2) = (st', evs) := Option.some.inj h
      rw [Prod.ext_iff] at h'
      dsimp only at h'
      rw [← h'.1]
      cases hwatch : st.watching with
      | true => rw [if_pos rfl]
      | false => rw [if_neg (fun hcontra => Bool.noConfusion hcontra), hw2]
  · rw [if_neg hg] at h
    have h' : ((st : ElState), ([] : List Ev)) = (st', evs) := Option.some.inj h
    rw [Prod.ext_iff] at h'
    dsimp only at h'
    rw [← h'.1]

/-- C8: when the element's inline style is untouched (no inline font
size, no inline `min-height`), the element has non-zero rendered height
and the content already fits, `clamp()` is a fixpoint: it returns the
state unchanged and emits no events — so repeated calls change nothing. -/
theorem clamp_fixpoint_when_fits (C : Ctrl) (env : Env) (fuel : ℕ) (st : ElState)
    (hfs : st.fontSize = none) (hmh : st.hasMinHeight = false)
    (hoh : env.innerHeight st.content none ≠ 0)
    (hfit : shouldClampAt C.cfg env st.content none = false) :
    clamp C env fuel st = some (st, []) := by
  obtain ⟨c, f, m, w⟩ := st
  obtain rfl : f = none := hfs
  obtain rfl : m = false := hmh
  have hfit' : shouldClampAt C.cfg env c none = false := hfit
  have hoh' : env.innerHeight c none ≠ 0 := hoh
  simp only [clamp, remediate]
  rw [if_pos hoh']
  by_cases hu : C.cfg.useSoftClamp = true
  · rw [if_pos hu,
      softClamp_guard_false C env fuel ⟨c, none, false, false⟩ hfit']
    cases w <;> rfl
  · rw [if_neg hu,
      hardClamp_guard_false C env fuel ⟨c, none, false, false⟩ hfit']
    cases w <;> rfl

/-- C9: when `minFontSize > maxFontSize` and overflow holds after the
font-size reset, the candidate list of the soft-clamp search is empty, so
`softClamp()` performs no font-size iteration (the inline font size stays
reset) and falls straight through to `hardClamp()` after firing the
soft-clamp event. -/
theorem softClamp_empty_range (C : Ctrl) (env : Env) (fuel : ℕ) (st : ElState)
    (hrange : C.cfg.maxFontSize < C.cfg.minFontSize)
    (hov : shouldClampAt C.cfg env st.content none = true) :
    candList C.cfg.maxFontSize C.cfg.minFontSize = [] ∧
    softClamp C env fuel st =
      (match hardClamp C env fuel { st with fontSize := none } with
       | some (st2, evs2) => some (st2, Ev.softClamp :: evs2)
       | none => none) := by
  have hc : candList C.cfg.maxFontSize C.cfg.minFontSize = [] := by
    rw [candList, Int.toNat_of_nonpos (by omega)]
    rfl
  refine ⟨hc, ?_⟩
  simp only [softClamp]
  rw [hov]
  simp only [if_true, hc]
  rfl

/-- C4-amended: in a terminating remediation pass entered with overflow
(and a nonempty `originalWords`), at least one of the soft-clamp and
hard-clamp signals fires — exactly one except in the soft→hard cascade,
where both fire (event trace `[softClamp, hardClamp, clamp]`) — and the
clamp-completed signal fires exactly once iff the pass ended in a
fitting state. -/
theorem remediate_event_discipline (C : Ctrl) (env : Env) (fuel : ℕ) (st st' : ElState)
    (evs : List Ev)
    (hw : C.originalWords ≠ [])
    (hov : entryOverflow C env st = true)
    (h : remediate C env fuel st = some (st', evs)) :
    (evs.count Ev.softClamp + evs.count Ev.hardClamp = 1 ∨
      evs = [Ev.softClamp, Ev.hardClamp, Ev.clamp]) ∧
    (evs.count Ev.clamp = 1 ↔ shouldClampAt C.cfg env st'.content st'.fontSize = false) := by
  unfold remediate at h
  unfold entryOverflow at hov
  by_cases hu : C.cfg.useSoftClamp = true
  · rw [if_pos hu] at h hov
    obtain ⟨hevs, hfits⟩ := softClamp_guard_true C env fuel st st' evs hov hw h
    rcases hevs with rfl | rfl
    · exact ⟨Or.inl (by decide), by rw [hfits]; exact ⟨fun _ => rfl, fun _ => by decide⟩⟩
    · exact ⟨Or.inr rfl, by rw [hfits]; exact ⟨fun _ => rfl, fun _ => by decide⟩⟩
  · rw [if_neg hu] at h hov
    obtain ⟨hevs, _, _, _, hfits⟩ := hardClamp_guard_true C env fuel st st' evs hov hw h
    subst hevs
    exact ⟨Or.inl (by decide), by rw [hfits]; exact ⟨fun _ => rfl, fun _ => by decide⟩⟩

/-- When some visited candidate fits, the soft-clamp loop stops at the
first (hence largest) fitting size of the descending list. -/
theorem softLoop_found (cfg : Config) (env : Env) (c : List Char) :
    ∀ (n : ℕ) (hi : ℤ) (fs0 : Option ℤ),
    (∃ k : ℕ, k < n ∧ shouldClampAt cfg env c (some (hi - k)) = false) →
    ∃ j : ℤ, softLoop cfg env c (descList n hi) fs0 = (some j, true) ∧
      shouldClampAt cfg env c (some j) = false ∧
      hi - n < j ∧ j ≤ hi ∧
      ∀ m : ℤ, j < m → m ≤ hi → shouldClampAt cfg env c (some m) = true := by
  intro n
  induction n with
  | zero => rintro hi fs0 ⟨k, hk, _⟩; exact absurd hk (by omega)
  | succ n ih =>
    rintro hi fs0 ⟨k, hk, hfit⟩
    by_cases hg : shouldClampAt cfg env c (some hi) = true
    · have hk0 : k ≠ 0 := by
        intro h0
        rw [h0] at hfit
        norm_num at hfit
        rw [hfit] at hg
        exact Bool.noConfusion hg
      have hcast : hi - 1 - ((k - 1 : ℕ) : ℤ) = hi - (k : ℕ) := by omega
      obtain ⟨j, hloop, hjf, hlb, hub, hmax⟩ := ih (hi - 1) (some hi)
        ⟨k - 1, by omega, by rw [hcast]; exact hfit⟩
      refine ⟨j, ?_, hjf, by omega, by omega, ?_⟩
      · simp only [descList, softLoop]
        rw [if_pos hg]
        exact hloop
      · intro m h1 h2
        by_cases h3 : m ≤ hi - 1
        · exact hmax m h1 h3
        · have hm : m = hi := by omega
          rw [hm]
          exact hg
    · have hg' : shouldClampAt cfg env c (some hi) = false := by
        revert hg
        cases shouldClampAt cfg env c (some hi) <;> simp
      refine ⟨hi, ?_, hg', by omega, le_refl hi,
        fun m h1 h2 => absurd (lt_of_lt_of_le h1 h2) (lt_irrefl hi)⟩
      simp only [descList, softLoop]
      rw [if_neg (by rw [hg']; exact Bool.noConfusion)]

/-- C5-amended: when overflow holds after the font-size reset and some
size in `[minFontSize, maxFontSize]` fits, `softClamp()` scans downward
from `maxFontSize` in unit decrements and leaves the font size at the
*largest* value in range satisfying `!shouldClamp()` (every larger value
in range overflows), firing the soft-clamp and clamp-completed events. -/
theorem softClamp_largest_fit (C : Ctrl) (env : Env) (fuel : ℕ) (st : ElState)
    (hov : shouldClampAt C.cfg env st.content none = true)
    (hex : ∃ i : ℤ, C.cfg.minFontSize ≤ i ∧ i ≤ C.cfg.maxFontSize ∧
      shouldClampAt C.cfg env st.content (some i) = false) :
    ∃ j : ℤ, softClamp C env fuel st =
        some ({ st with fontSize := some j }, [Ev.softClamp, Ev.clamp]) ∧
      shouldClampAt C.cfg env st.content (some j) = false ∧
      C.cfg.minFontSize ≤ j ∧ j ≤ C.cfg.maxFontSize ∧
      ∀ m : ℤ, j < m → m ≤ C.cfg.maxFontSize →
        shouldClampAt C.cfg env st.content (some m) = true := by
  obtain ⟨i, h1, h2, h3⟩ := hex
  have hfitk : shouldClampAt C.cfg env st.content
      (some (C.cfg.maxFontSize - ((C.cfg.maxFontSize - i).toNat : ℤ))) = false := by
    have he : C.cfg.maxFontSize - ((C.cfg.maxFontSize - i).toNat : ℤ) = i := by omega
    rw [he]
    exact h3
  obtain ⟨j, hloop, hjf, hlb, hub, hmax⟩ := softLoop_found C.cfg env st.content
    (C.cfg.maxFontSize + 1 - C.cfg.minFontSize).toNat C.cfg.maxFontSize none
    ⟨(C.cfg.maxFontSize - i).toNat, by omega, hfitk⟩
  refine ⟨j, ?_, hjf, by omega, hub, hmax⟩
  simp only [softClamp]
  rw [hov]
  simp only [if_true, candList]
  rw [hloop]

/-! ## Evaluation of `shouldClamp()` on the concrete surfaces -/

/-- On `lenEnv`, under any strict one-line configuration, overflow holds
exactly when the content is longer than one character. -/
theorem lenEnv_shouldClamp (cfg : Config) (hml : cfg.maxLines = 1) (hs : cfg.strict = true)
    (c : List Char) (fs : Option ℤ) :
    shouldClampAt cfg lenEnv c fs = decide (1 < c.length) := by
  simp only [shouldClampAt, textDims, lenEnv, hml, hs, if_true]
  by_cases h : c.length ≤ 1
  · rw [if_pos h, decide_eq_false (by norm_num), decide_eq_false (by omega)]
  · rw [if_neg h, decide_eq_true (by norm_num), decide_eq_true (by omega)]

/-- On `fsEnv` with `fsCfg`, overflow holds exactly when the inline font
size is absent or smaller than 3. -/
theorem fsEnv_shouldClamp (c : List Char) (fs : Option ℤ) :
    shouldClampAt fsCfg fsEnv c fs =
      (match fs with | some i => decide (i < 3) | none => true) := by
  cases fs with
  | none =>
    simp only [shouldClampAt, textDims, fsEnv, fsCfg]
    rw [decide_eq_true (by norm_num)]
  | some i =>
    simp only [shouldClampAt, textDims, fsEnv, fsCfg]
    by_cases h : 3 ≤ i
    · rw [if_pos h, decide_eq_false (by norm_num), decide_eq_false (by omega)]
    · rw [if_neg h, decide_eq_true (by norm_num), decide_eq_true (by omega)]

/-- On `fitEnv`, under any strict one-line configuration, nothing ever
overflows. -/
theorem fitEnv_shouldClamp (cfg : Config) (hml : cfg.maxLines = 1) (hs : cfg.strict = true)
    (c : List Char) (fs : Option ℤ) :
    shouldClampAt cfg fitEnv c fs = false := by
  simp only [shouldClampAt, textDims, fitEnv, hml, hs, if_true]
  rw [decide_eq_false (by norm_num)]

/-! ## Concrete executions of the clamping passes -/

/-- On `lenEnv` with original text `"a b"` (both one-character words
fit alone, the whole text does not), `hardClamp` ends holding `"a"`. -/
theorem hardClamp_twoWords_exec : hardClamp twoWordsCtrl lenEnv 1 abSpacedSt =
    some (⟨['a'], none, false, false⟩, [Ev.hardClamp, Ev.clamp]) := by
  have hchar := lenEnv_shouldClamp cascadeCfg rfl rfl
  have hc1 : twoWordsCtrl.cfg = cascadeCfg := rfl
  have hw1 : twoWordsCtrl.originalWords = [['a'], ['b']] := rfl
  have hp : pfxTexts [['a'], ['b']] = [[], ['a']] := rfl
  have hj0 : joinWords [] = [] := rfl
  have hj1 : joinWords [['a']] = ['a'] := rfl
  simp [hardClamp, hc1, hw1, hchar, hp, phaseAList, abSpacedSt, hj0, hj1]

/-- On `lenEnv` with the single word `"ab"` and no soft clamping,
`hardClamp` ends holding the empty prefix. -/
theorem hardClamp_hardOnly_exec : hardClamp hardOnlyCtrl lenEnv 1 abSt =
    some (⟨[], none, false, false⟩, [Ev.hardClamp, Ev.clamp]) := by
  have hchar := lenEnv_shouldClamp hardOnlyCfg rfl rfl
  have hc1 : hardOnlyCtrl.cfg = hardOnlyCfg := rfl
  have hw1 : hardOnlyCtrl.originalWords = [['a', 'b']] := rfl
  have hp : pfxTexts [['a', 'b']] = [[]] := rfl
  have hj0 : joinWords [] = [] := rfl
  simp [hardClamp, hc1, hw1, hchar, hp, phaseAList, abSt, hj0]

/-- The remediation dispatch for `hardOnlyCtrl` is the hard clamp above. -/
theorem remediate_hardOnly_exec : remediate hardOnlyCtrl lenEnv 1 abSt =
    some (⟨[], none, false, false⟩, [Ev.hardClamp, Ev.clamp]) := by
  have hu : hardOnlyCtrl.cfg.useSoftClamp = false := rfl
  rw [remediate, if_neg (by rw [hu]; exact Bool.noConfusion)]
  exact hardClamp_hardOnly_exec

/-- On `lenEnv` with the single word `"ab"`, soft clamping exhausts its
range and cascades into hard clamping: the full event trace is
`[softClamp, hardClamp, clamp]`. -/
theorem softClamp_cascade_exec : softClamp cascadeCtrl lenEnv 1 abSt =
    some (⟨[], some 1, false, false⟩, [Ev.softClamp, Ev.hardClamp, Ev.clamp]) := by
  have hchar := lenEnv_shouldClamp cascadeCfg rfl rfl
  have hc1 : cascadeCtrl.cfg = cascadeCfg := rfl
  have hw1 : cascadeCtrl.originalWords = [['a', 'b']] := rfl
  have hmax : cascadeCfg.maxFontSize = 2 := rfl
  have hmin : cascadeCfg.minFontSize = 1 := rfl
  have hcand : candList 2 1 = [2, 1] := rfl
  have hp : pfxTexts [['a', 'b']] = [[]] := rfl
  have hj0 : joinWords [] = [] := rfl
  simp [softClamp, hc1, hw1, hmax, hmin, hchar, hcand, softLoop, hardClamp, hp,
    phaseAList, abSt, hj0]

/-- On `fsEnv` (content fits at any inline size ≥ 3), `softClamp` stops
at the first candidate, size 5. -/
theorem softClamp_fsEnv_exec : softClamp fsCtrl fsEnv 1 xSt =
    some (⟨['x'], some 5, false, false⟩, [Ev.softClamp, Ev.clamp]) := by
  have hc1 : fsCtrl.cfg = fsCfg := rfl
  have hmax : fsCfg.maxFontSize = 5 := rfl
  have hmin : fsCfg.minFontSize = 1 := rfl
  have hcand : candList 5 1 = [5, 4, 3, 2, 1] := rfl
  simp [softClamp, hc1, hmax, hmin, fsEnv_shouldClamp, hcand, softLoop, xSt]

/-- On `fitEnv` (everything fits), a watching `clamp()` call is an
identity that re-watches at the end. -/
theorem clamp_fitEnv_exec : clamp cascadeCtrl fitEnv 1 fitSt = some (fitSt, []) := by
  have hchar := fitEnv_shouldClamp cascadeCfg rfl rfl
  have hc1 : cascadeCtrl.cfg = cascadeCfg := rfl
  have hfe : fitEnv.innerHeight = fun _ _ => 1 := rfl
  have hu : cascadeCfg.useSoftClamp = true := rfl
  simp [clamp, remediate, softClamp, hc1, hchar, hfe, hu, fitSt]

/-! ## Counterexamples and witnesses -/

/-- C3-counterexample: on `lenEnv`, the original text `"a b"` overflows
while no Phase A candidate (`""`, `"a"`) does, so `hardClamp` runs with
its guard true, Phase B never runs, and the surface ends holding `"a"` —
not the full original word sequence `"a b"` the claim promises. -/
theorem hardClamp_drops_last_word_cex :
    joinWords twoWordsCtrl.originalWords = ['a', ' ', 'b'] ∧
    abSpacedSt.content = ['a', ' ', 'b'] ∧
    shouldClampAt twoWordsCtrl.cfg lenEnv abSpacedSt.content abSpacedSt.fontSize = true ∧
    hardClamp twoWordsCtrl lenEnv 1 abSpacedSt =
      some (⟨['a'], none, false, false⟩, [Ev.hardClamp, Ev.clamp]) ∧
    (['a'] : List Char) ≠ ['a', ' ', 'b'] :=
  ⟨rfl, rfl,
    by rw [lenEnv_shouldClamp twoWordsCtrl.cfg rfl rfl]; decide,
    hardClamp_twoWords_exec, by decide⟩

/-- C3-witness: the amended statement evaluated on the `"a b"` scenario:
the surface ends with the words-but-last prefix `"a"`. -/
theorem hardClamp_all_prefixes_fit_witness :
    hardClamp twoWordsCtrl lenEnv 1 abSpacedSt =
      some ({ abSpacedSt with
              content := joinWords (twoWordsCtrl.originalWords.take
                (twoWordsCtrl.originalWords.length - 1)),
              hasMinHeight := false },
            [Ev.hardClamp, Ev.clamp]) :=
  hardClamp_all_prefixes_fit twoWordsCtrl lenEnv 1 abSpacedSt
    (by rw [lenEnv_shouldClamp twoWordsCtrl.cfg rfl rfl]; decide)
    (by decide)
    (by
      intro i hi
      have hl2 : twoWordsCtrl.originalWords.length = 2 := rfl
      rw [hl2] at hi
      rw [lenEnv_shouldClamp twoWordsCtrl.cfg rfl rfl]
      rcases i with _ | _ | i
      · decide
      · decide
      · exact absurd hi (by omega))

/-- C4-counterexample: the soft→hard cascade on `lenEnv` fires *both*
the soft-clamp and the hard-clamp signals in one remediation pass that
changed rendering state (content `"ab"` → `""`, inline font size set),
refuting "exactly one of the two signals fires". -/
theorem softClamp_cascade_fires_both_cex :
    softClamp cascadeCtrl lenEnv 1 abSt =
      some (⟨[], some 1, false, false⟩, [Ev.softClamp, Ev.hardClamp, Ev.clamp]) ∧
    ¬ (([Ev.softClamp, Ev.hardClamp, Ev.clamp] : List Ev).count Ev.softClamp +
        ([Ev.softClamp, Ev.hardClamp, Ev.clamp] : List Ev).count Ev.hardClamp = 1) :=
  ⟨softClamp_cascade_exec, by decide⟩

/-- C4-witness: the amended event discipline evaluated on a hard-only
pass over `lenEnv`. -/
theorem remediate_event_discipline_witness :
    ((([Ev.hardClamp, Ev.clamp] : List Ev).count Ev.softClamp +
        ([Ev.hardClamp, Ev.clamp] : List Ev).count Ev.hardClamp = 1) ∨
      ([Ev.hardClamp, Ev.clamp] : List Ev) = [Ev.softClamp, Ev.hardClamp, Ev.clamp]) ∧
    ((([Ev.hardClamp, Ev.clamp] : List Ev).count Ev.clamp = 1) ↔
      shouldClampAt hardOnlyCtrl.cfg lenEnv
        ((⟨[], none, false, false⟩ : ElState)).content
        ((⟨[], none, false, false⟩ : ElState)).fontSize = false) :=
  remediate_event_discipline hardOnlyCtrl lenEnv 1 abSt ⟨[], none, false, false⟩
    [Ev.hardClamp, Ev.clamp]
    (by decide)
    (by
      have hu : hardOnlyCtrl.cfg.useSoftClamp = false := rfl
      rw [entryOverflow, if_neg (by rw [hu]; exact Bool.noConfusion),
        lenEnv_shouldClamp hardOnlyCtrl.cfg rfl rfl]
      decide)
    remediate_hardOnly_exec

/-- C5-counterexample: on `fsEnv`, sizes 3, 4 and 5 all fit; `softClamp`
leaves the font size at 5, although 3 is a smaller value of
`[minFontSize, maxFontSize]` satisfying `!shouldClamp()` — so the chosen
size is not the smallest fitting value. -/
theorem softClamp_not_smallest_cex :
    softClamp fsCtrl fsEnv 1 xSt =
      some (⟨['x'], some 5, false, false⟩, [Ev.softClamp, Ev.clamp]) ∧
    shouldClampAt fsCfg fsEnv ['x'] (some 3) = false ∧
    fsCfg.minFontSize ≤ 3 ∧ (3 : ℤ) ≤ fsCfg.maxFontSize ∧ (3 : ℤ) < 5 :=
  ⟨softClamp_fsEnv_exec, by simp [fsEnv_shouldClamp], by decide, by decide, by decide⟩

/-- C5-witness: the amended statement evaluated on `fsEnv`. -/
theorem softClamp_largest_fit_witness :
    ∃ j : ℤ, softClamp fsCtrl fsEnv 1 xSt =
        some ({ xSt with fontSize := some j }, [Ev.softClamp, Ev.clamp]) ∧
      shouldClampAt fsCtrl.cfg fsEnv xSt.content (some j) = false ∧
      fsCtrl.cfg.minFontSize ≤ j ∧ j ≤ fsCtrl.cfg.maxFontSize ∧
      ∀ m : ℤ, j < m → m ≤ fsCtrl.cfg.maxFontSize →
        shouldClampAt fsCtrl.cfg fsEnv xSt.content (some m) = true :=
  softClamp_largest_fit fsCtrl fsEnv 1 xSt
    (by simp [show fsCtrl.cfg = fsCfg from rfl, fsEnv_shouldClamp])
    ⟨3, by decide, by decide,
      by simp [show fsCtrl.cfg = fsCfg from rfl, fsEnv_shouldClamp]⟩

/-- C7-witness: the watching flag survives a concrete `clamp()` call. -/
theorem clamp_preserves_watching_witness :
    (fitSt : ElState).watching = fitSt.watching :=
  clamp_preserves_watching cascadeCtrl fitEnv 1 fitSt fitSt [] clamp_fitEnv_exec

/-- C8-witness: a concrete already-fitting `clamp()` call returns the
state unchanged with no events. -/
theorem clamp_fixpoint_when_fits_witness :
    clamp cascadeCtrl fitEnv 1 fitSt = some (fitSt, []) :=
  clamp_fixpoint_when_fits cascadeCtrl fitEnv 1 fitSt rfl rfl
    (by norm_num [fitEnv])
    (by simp [show cascadeCtrl.cfg = cascadeCfg from rfl,
      fitEnv_shouldClamp cascadeCfg rfl rfl])

/-- C9-witness: with `minFontSize = 5 > 2 = maxFontSize` and overflowing
content, the candidate list is empty and `softClamp` falls through to
`hardClamp`. -/
theorem softClamp_empty_range_witness :
    candList emptyRangeCtrl.cfg.maxFontSize emptyRangeCtrl.cfg.minFontSize = [] ∧
    softClamp emptyRangeCtrl lenEnv 1 abSt =
      (match hardClamp emptyRangeCtrl lenEnv 1 { abSt with fontSize := none } with
       | some (st2, evs2) => some (st2, Ev.softClamp :: evs2)
       | none => none) :=
  softClamp_empty_range emptyRangeCtrl lenEnv 1 abSt (by decide)
    (by simp [show emptyRangeCtrl.cfg = emptyRangeCfg from rfl,
      lenEnv_shouldClamp emptyRangeCfg rfl rfl, abSt])

end LineClamp
